import Mathlib

/-!
Verification of the streaming gesture-recognition pipeline of the LIA-WEB
repository.  The definitions below are a shallow embedding of the class
`GestureRecognizer` in `src/lia-web/scripts/reconhecer_gestos.py` (and, for
the error-handling claims, of `LibrasApp.reconhecer_gesto` in
`src/libras_alfabeto_projeto/GUI/main.py`).  Probabilities are modelled as
rationals (only their ordering matters to the pipeline), labels as strings,
and the external LSTM classifier as an explicit function from the window
contents to a probability vector.
-/

namespace LIA

/-- One detected landmark: the (x, y, z) coordinates MediaPipe reports. -/
abbrev Landmark := ℚ × ℚ × ℚ

/-- One detected hand: its ordered list of landmarks (21 for MediaPipe). -/
abbrev Hand := List Landmark

/-- One encoded pose sample: the flattened numeric vector
(126 values for 21 landmarks x 3 coordinates x 2 hand slots). -/
abbrev Sample := List ℚ

/-- `SEQUENCE_LENGTH = 30`: frames in the window buffer
(`reconhecer_gestos.py`, line 41). -/
def SEQUENCE_LENGTH : Nat := 30

/-- `MIN_CONFIDENCE = 0.7`: default minimum confidence
(`reconhecer_gestos.py`, line 42). -/
def MIN_CONFIDENCE : ℚ := mkRat 7 10

/-- `RESET_THRESHOLD = 10`: hand-absent frames before a reset
(`reconhecer_gestos.py`, line 43). -/
def RESET_THRESHOLD : Nat := 10

/-- `HISTORY_SIZE = 15`: capacity of the vote-smoothing history
(`reconhecer_gestos.py`, line 44). -/
def HISTORY_SIZE : Nat := 15

/-- Appending to a `collections.deque` with `maxlen`: the new element goes on
the right and, past capacity, the oldest elements fall off the left. -/
def dequeAppend (maxlen : Nat) (xs : List α) (x : α) : List α :=
  let ys := xs ++ [x]
  ys.drop (ys.length - maxlen)

/-- `GestureRecognizer.processar_landmarks` (lines 94-111): concatenate the
coordinates of the detected hands' landmarks in detection order, truncate to
42 landmarks, zero-pad up to 42, and flatten to a 126-value sample. -/
def processar_landmarks (multi_hand_landmarks : List Hand) : Sample :=
  let landmarks := multi_hand_landmarks.flatten
  let landmarks := landmarks.take 42
  let landmarks := landmarks ++ List.replicate (42 - landmarks.length) ((0 : ℚ), (0 : ℚ), (0 : ℚ))
  landmarks.foldr (fun p acc => p.1 :: p.2.1 :: p.2.2 :: acc) []

/-- `np.argmax`: the first index attaining the maximum of the list
(`0` for the empty list, which the classifier contract excludes). -/
def np_argmax (l : List ℚ) : Nat :=
  (List.range l.length).foldl (fun best i => if l.getD best 0 < l.getD i 0 then i else best) 0

/-- The keys of the `defaultdict(int)` counter built by iterating the vote
history (lines 138-141): each label in order of first occurrence, as Python
dicts preserve insertion order. -/
def firstSeenKeys (hist : List String) : List String :=
  hist.foldl (fun acc g => if g ∈ acc then acc else acc ++ [g]) []

/-- Python's `max(contagem.items(), key=lambda x: x[1])[0]` starting from
first candidate `b`: a later candidate replaces the current best only when
its count is strictly larger, so the first maximal key wins. -/
def escolhe_max (hist : List String) (b : String) (ks : List String) : String :=
  ks.foldl (fun best k => if hist.count best < hist.count k then k else best) b

/-- Majority vote over the history (lines 137-142): the most frequent label,
ties broken by first occurrence in the history.  `""` is returned only for
the empty history, which never reaches this point in the pipeline. -/
def gesto_mais_frequente (hist : List String) : String :=
  match firstSeenKeys hist with
  | [] => ""
  | k :: ks => escolhe_max hist k ks

/-- The immutable configuration of a `GestureRecognizer`: the loaded label
classes, the minimum confidence (constructor parameter, line 62), and the
external classifier `model.predict` viewed as a function from the window
contents to a probability vector. -/
structure Config where
  classes : List String
  min_confidence : ℚ
  model : List Sample → List ℚ

/-- The mutable per-session state initialised in `__init__` (lines 88-92):
window buffer, vote history, consecutive hand-absent frame counter, last
emitted gesture, and its confidence. -/
structure State where
  buffer : List Sample
  prediction_history : List String
  frames_sem_maos : Nat
  ultimo_gesto : Option String
  ultima_confianca : ℚ
deriving DecidableEq

/-- The state built by `__init__` (lines 88-92). -/
def initState : State :=
  { buffer := [], prediction_history := [], frames_sem_maos := 0,
    ultimo_gesto := none, ultima_confianca := 0 }

/-- `GestureRecognizer.reset` (lines 202-208): clear everything. -/
def reset (_st : State) : State :=
  { buffer := [], prediction_history := [], frames_sem_maos := 0,
    ultimo_gesto := none, ultima_confianca := 0 }

/-- `GestureRecognizer.reconhecer` (lines 113-144): guard on a full window,
run the classifier, take the argmax class and its probability, gate on
`min_confidence`, append the accepted label to the history and resolve the
majority vote.  Returns the `(gesto, confianca)` pair together with the
updated state (the Python method mutates `self.prediction_history`). -/
def reconhecer (cfg : Config) (st : State) : (Option String × ℚ) × State :=
  if st.buffer.length < SEQUENCE_LENGTH then ((none, 0), st)
  else
    let predicoes := cfg.model st.buffer
    let classe_idx := np_argmax predicoes
    let confianca := predicoes.getD classe_idx 0
    if confianca < cfg.min_confidence then ((none, confianca), st)
    else
      let gesto := cfg.classes.getD classe_idx ""
      let hist := dequeAppend HISTORY_SIZE st.prediction_history gesto
      let gesto_final := gesto_mais_frequente hist
      ((some gesto_final, confianca), { st with prediction_history := hist })

/-- The per-frame observable outcome of `processar_frame` (the annotated
frame itself is rendering-only and omitted): the reported gesture, its
confidence, and whether a fresh recognition fired this frame. -/
structure FrameResult where
  gesto : Option String
  confianca : ℚ
  novo_reconhecimento : Bool
deriving DecidableEq

/-- Lines 188-199 of `processar_frame`: when the window is full, run
`reconhecer`; a truthy gesture differing from `ultimo_gesto` fires a new
recognition, records the label and confidence, and clears the window buffer
(only the buffer - line 198 clears `self.buffer` alone). -/
def etapa_emissao (cfg : Config) (st : State) : State × FrameResult :=
  if st.buffer.length = SEQUENCE_LENGTH then
    let r := reconhecer cfg st
    let confianca := r.1.2
    let st1 := r.2
    match r.1.1 with
    | some g =>
      if g ≠ "" ∧ some g ≠ st1.ultimo_gesto then
        let st2 := { st1 with ultimo_gesto := some g, ultima_confianca := confianca,
                              buffer := [] }
        (st2, ⟨st2.ultimo_gesto, st2.ultima_confianca, true⟩)
      else (st1, ⟨st1.ultimo_gesto, st1.ultima_confianca, false⟩)
    | none => (st1, ⟨st1.ultimo_gesto, st1.ultima_confianca, false⟩)
  else (st, ⟨st.ultimo_gesto, st.ultima_confianca, false⟩)

/-- `GestureRecognizer.processar_frame` (lines 146-200).  The input is the
`multi_hand_landmarks` the detector produced for the frame (`[]` plays the
role of Python's falsy `None`).  Hand-absent frames bump `frames_sem_maos`
and, past `RESET_THRESHOLD` with a non-empty buffer, clear buffer and
history; hand-present frames zero the counter, push the encoded sample and
run the emission stage. -/
def processar_frame (cfg : Config) (st : State) (multi_hand_landmarks : List Hand) :
    State × FrameResult :=
  if multi_hand_landmarks.isEmpty then
    let st1 := { st with frames_sem_maos := st.frames_sem_maos + 1 }
    let st2 := if RESET_THRESHOLD < st1.frames_sem_maos ∧ 0 < st1.buffer.length
               then { st1 with buffer := [], prediction_history := [] } else st1
    (st2, ⟨st2.ultimo_gesto, st2.ultima_confianca, false⟩)
  else
    let landmarks := processar_landmarks multi_hand_landmarks
    let st1 := { st with frames_sem_maos := 0,
                         buffer := dequeAppend SEQUENCE_LENGTH st.buffer landmarks }
    etapa_emissao cfg st1

/-- The per-session state threaded through a sequence of frames: the folded
`processar_frame` of the live loop (lines 361-370 of the script). -/
def runState (cfg : Config) (st : State) (inputs : List (List Hand)) : State :=
  inputs.foldl (fun s i => (processar_frame cfg s i).1) st

/-- The stream of recognition events over a sequence of frames: the
`(gesto, confianca)` pairs of the frames whose `novo_reconhecimento` flag
fired (the frames the main loop reports, lines 372-382). -/
def runEvents (cfg : Config) : State → List (List Hand) → List (Option String × ℚ)
  | _, [] => []
  | st, i :: rest =>
    let r := processar_frame cfg st i
    (if r.2.novo_reconhecimento then [(r.2.gesto, r.2.confianca)] else []) ++
      runEvents cfg r.1 rest

/-- The operations a caller can perform on the recognizer state: process a
frame, push a sample into the window deque, clear the window, or the manual
session reset bound to the R key. -/
inductive Op where
  | frame (multi_hand_landmarks : List Hand)
  | push (s : Sample)
  | clearWindow
  | reset

/-- Interpretation of one operation on the state. -/
def runOp (cfg : Config) (st : State) : Op → State
  | .frame h => (processar_frame cfg st h).1
  | .push s => { st with buffer := dequeAppend SEQUENCE_LENGTH st.buffer s }
  | .clearWindow => { st with buffer := [] }
  | .reset => reset st

/-- Interpretation of a sequence of operations. -/
def runOps (cfg : Config) (st : State) (ops : List Op) : State :=
  ops.foldl (runOp cfg) st

/-!  Exception flow of the lia-web script.  `GestureRecognizer.reconhecer`
and `processar_frame` contain no `try`/`except`; the variant below embeds
the same lines with a classifier that may raise, making the propagation of
the exception explicit: an `Except.error` result of `processar_frameE` is an
exception escaping the per-frame call (the main loop, lines 360-418,
catches only `KeyboardInterrupt`). -/

/-- `GestureRecognizer.reconhecer` (lines 113-144) with a fallible
classifier call: the exception of `self.model.predict` propagates. -/
def reconhecerE (classes : List String) (min_confidence : ℚ)
    (modelE : List Sample → Except String (List ℚ))
    (st : State) : Except String ((Option String × ℚ) × State) :=
  if st.buffer.length < SEQUENCE_LENGTH then .ok ((none, 0), st)
  else
    match modelE st.buffer with
    | .error e => .error e
    | .ok predicoes =>
      let classe_idx := np_argmax predicoes
      let confianca := predicoes.getD classe_idx 0
      if confianca < min_confidence then .ok ((none, confianca), st)
      else
        let gesto := classes.getD classe_idx ""
        let hist := dequeAppend HISTORY_SIZE st.prediction_history gesto
        let gesto_final := gesto_mais_frequente hist
        .ok ((some gesto_final, confianca), { st with prediction_history := hist })

/-- `GestureRecognizer.processar_frame` (lines 146-200) with a fallible
classifier call: the body has no handler, so an exception raised inside
`reconhecer` propagates out of the whole per-frame call. -/
def processar_frameE (classes : List String) (min_confidence : ℚ)
    (modelE : List Sample → Except String (List ℚ))
    (st : State) (multi_hand_landmarks : List Hand) :
    Except String (State × FrameResult) :=
  if multi_hand_landmarks.isEmpty then
    let st1 := { st with frames_sem_maos := st.frames_sem_maos + 1 }
    let st2 := if RESET_THRESHOLD < st1.frames_sem_maos ∧ 0 < st1.buffer.length
               then { st1 with buffer := [], prediction_history := [] } else st1
    .ok (st2, ⟨st2.ultimo_gesto, st2.ultima_confianca, false⟩)
  else
    let landmarks := processar_landmarks multi_hand_landmarks
    let st1 := { st with frames_sem_maos := 0,
                         buffer := dequeAppend SEQUENCE_LENGTH st.buffer landmarks }
    if st1.buffer.length = SEQUENCE_LENGTH then
      match reconhecerE classes min_confidence modelE st1 with
      | .error e => .error e
      | .ok r =>
        let confianca := r.1.2
        let st2 := r.2
        match r.1.1 with
        | some g =>
          if g ≠ "" ∧ some g ≠ st2.ultimo_gesto then
            let st3 := { st2 with ultimo_gesto := some g, ultima_confianca := confianca,
                                  buffer := [] }
            .ok (st3, ⟨st3.ultimo_gesto, st3.ultima_confianca, true⟩)
          else .ok (st2, ⟨st2.ultimo_gesto, st2.ultima_confianca, false⟩)
        | none => .ok (st2, ⟨st2.ultimo_gesto, st2.ultima_confianca, false⟩)
    else .ok (st1, ⟨st1.ultimo_gesto, st1.ultima_confianca, false⟩)

/-!  Embedding of `LibrasApp.reconhecer_gesto` of
`src/libras_alfabeto_projeto/GUI/main.py` (lines 921-968), the variant whose
inference is wrapped in `try`/`except`.  The embedding covers the path where
model, label set and target gesture are loaded (line 923 otherwise falls
back to a simulated recognizer). -/

/-- The mutable GUI state touched by `reconhecer_gesto`
(initialised at lines 144-155 of `GUI/main.py`). -/
structure GuiState where
  buffer_gestos : List Sample
  historico_predicoes : List String
  ultimo_gesto_reconhecido : Option String
  pontuacao : Nat
  nivel_atual : Nat
deriving DecidableEq

/-- The user-visible outcome of one `reconhecer_gesto` call: the success
feedback (score bump), the intermediate "recognized" feedback, no feedback,
or the reported error of the `except` branch (lines 963-968). -/
inductive GuiOutcome where
  | correto (gesto : String)
  | reconhecido (gesto : String)
  | silencioso
  | erro (msg : String)
deriving DecidableEq

/-- Line 935: strip the `_DIR` / `_ESQ` hand suffixes. -/
def normaliza (g : String) : String :=
  (g.replace "_DIR" "").replace "_ESQ" ""

/-- `LibrasApp.reconhecer_gesto` (lines 927-968): the classifier call sits
inside `try`; on an exception the `except` branch reports the failure and
no state field has been touched yet (the only mutations - the history
append, buffer/history clears and `ultimo_gesto_reconhecido` - all come
after the `predict`/`argmax`/indexing region that can raise). -/
def reconhecer_gesto (classes : List String)
    (modelE : List Sample → Except String (List ℚ)) (gesto_alvo : String)
    (st : GuiState) : GuiState × GuiOutcome :=
  match modelE st.buffer_gestos with
  | .error e => (st, .erro e)
  | .ok preds =>
    let classe_idx := np_argmax preds
    let confianca := preds.getD classe_idx 0
    let gesto_reconhecido := classes.getD classe_idx ""
    let gesto_normalizado := normaliza gesto_reconhecido
    let alvo_normalizado := normaliza gesto_alvo
    let hist := dequeAppend HISTORY_SIZE st.historico_predicoes gesto_normalizado
    let gesto_final := gesto_mais_frequente hist
    if mkRat 7 10 < confianca ∧ gesto_final = alvo_normalizado then
      ({ st with historico_predicoes := [], buffer_gestos := [],
                 pontuacao := st.pontuacao + 10 * st.nivel_atual,
                 ultimo_gesto_reconhecido := some gesto_reconhecido },
       .correto gesto_final)
    else if some gesto_reconhecido ≠ st.ultimo_gesto_reconhecido then
      ({ st with historico_predicoes := hist,
                 ultimo_gesto_reconhecido := some gesto_reconhecido },
       .reconhecido gesto_reconhecido)
    else
      ({ st with historico_predicoes := hist,
                 ultimo_gesto_reconhecido := some gesto_reconhecido },
       .silencioso)

/-!  Embedding of the per-frame loop body of
`src/libras_alfabeto_projeto/app/reconhecer/reconhecer_gestos.py`
(lines 53-112), the standalone variant driven by module-level state. -/

/-- The module-level mutable state of the app/reconhecer script
(lines 27-31): `buffer = deque(maxlen=SEQUENCE_LENGTH)`,
`frames_sem_maos = 0`, `historico_predicoes = deque(maxlen=15)`,
`ultimo_gesto = None`. -/
structure AppState where
  buffer : List Sample
  frames_sem_maos : Nat
  historico_predicoes : List String
  ultimo_gesto : Option String
deriving DecidableEq

/-- One iteration of the app/reconhecer `while` loop (lines 53-101),
after frame capture: the presence branch (lines 62-70) increments
`frames_sem_maos` and - past `RESET_THRESHOLD` with a non-empty buffer -
clears **only the buffer** (line 65), or zeroes the counter and pushes the
encoded sample; the recognition block (lines 81-101) then runs whenever the
buffer is full, gates on `confianca >= MIN_CONFIDENCE`, appends the label,
resolves the majority and, on a changed label, records it, prints the
recognition and clears the buffer.  The returned pair is the new state and
the printed recognition, if any. -/
def passo_loop_app (le_classes : List String) (model : List Sample → List ℚ)
    (st : AppState) (multi_hand_landmarks : List Hand) :
    AppState × Option (String × ℚ) :=
  let st :=
    if multi_hand_landmarks.isEmpty then
      let st1 := { st with frames_sem_maos := st.frames_sem_maos + 1 }
      if RESET_THRESHOLD < st1.frames_sem_maos ∧ 0 < st1.buffer.length then
        { st1 with buffer := [] }
      else st1
    else
      { st with frames_sem_maos := 0,
                buffer := dequeAppend SEQUENCE_LENGTH st.buffer
                  (processar_landmarks multi_hand_landmarks) }
  if st.buffer.length = SEQUENCE_LENGTH then
    let preds := model st.buffer
    let classe_idx := np_argmax preds
    let confianca := preds.getD classe_idx 0
    if MIN_CONFIDENCE ≤ confianca then
      let gesto_atual := le_classes.getD classe_idx ""
      let hist := dequeAppend 15 st.historico_predicoes gesto_atual
      let gesto_final := gesto_mais_frequente hist
      let st := { st with historico_predicoes := hist }
      if some gesto_final ≠ st.ultimo_gesto then
        ({ st with ultimo_gesto := some gesto_final, buffer := [] },
         some (gesto_final, confianca))
      else (st, none)
    else (st, none)
  else (st, none)

/-!  Concrete material for the scenario proofs: one hand pose held still
("gesture A") and a second, different pose ("gesture B"), together with a
classifier that answers from the most recent sample of the window. -/

/-- A hand whose 21 landmarks all sit at the origin. -/
def handA : Hand := List.replicate 21 ((0 : ℚ), (0 : ℚ), (0 : ℚ))

/-- A hand whose 21 landmarks all sit at (1,1,1). -/
def handB : Hand := List.replicate 21 ((1 : ℚ), (1 : ℚ), (1 : ℚ))

/-- The encoded sample of a frame showing only `handA`. -/
def sampleA : Sample := processar_landmarks [handA]

/-- The encoded sample of a frame showing only `handB`. -/
def sampleB : Sample := processar_landmarks [handB]

/-- The fixed point reached while `handA` keeps being shown: full window of
`sampleA`, saturated vote history of "A", last emission "A". -/
def steadyA : State :=
  ⟨List.replicate 30 sampleA, List.replicate 15 "A", 0, some "A", mkRat 9 10⟩

/-- A one-class recognizer that always answers "A" with confidence 0.9. -/
def cfgC : Config := ⟨["A"], mkRat 7 10, fun _ => [mkRat 9 10]⟩

/-- A recognizer whose classifier always answers "B" with confidence 0.9. -/
def cfgM : Config := ⟨["A", "B"], mkRat 7 10, fun _ => [mkRat 1 10, mkRat 9 10]⟩

/-- A recognizer whose classifier is never confident (0.5 < 0.7). -/
def cfgLow : Config := ⟨["A"], mkRat 7 10, fun _ => [mkRat 1 2]⟩

/-- A 29-sample window one push away from full, with empty history. -/
def stC29 : State := ⟨List.replicate 29 sampleA, [], 0, none, 0⟩

/-- A full window with a vote history already holding two "A" votes. -/
def stM : State := ⟨List.replicate 30 sampleA, ["A", "A"], 0, none, 0⟩

/-- A state that has already seen 10 consecutive hand-absent frames while
still holding window and history contents. -/
def stAbsent : State := ⟨[sampleA], ["A"], 10, some "A", 0⟩

/-- The state after the hand-present half of a frame (lines 172-176): the
absence counter zeroed and the encoded sample pushed into the window. -/
def empurra (st : State) (multi_hand_landmarks : List Hand) : State :=
  { st with frames_sem_maos := 0,
            buffer := dequeAppend SEQUENCE_LENGTH st.buffer
              (processar_landmarks multi_hand_landmarks) }

/-- "The classifier keeps returning label `L` with confidence at or above
`min_confidence`": every full window is classified as `L` and passes the
gate.  This is the run hypothesis of the debounce claim, with the classifier,
the label and the per-window confidences all arbitrary. -/
def classifica_sempre (cfg : Config) (L : String) : Prop :=
  ∀ w : List Sample, w.length = SEQUENCE_LENGTH →
    cfg.classes.getD (np_argmax (cfg.model w)) "" = L ∧
    ¬ (cfg.model w).getD (np_argmax (cfg.model w)) 0 < cfg.min_confidence

/-- The exact state shape `k` hand-present frames after the emission of `L`
(window contents arbitrary): the window refills for 30 frames and then
slides while staying full, and the history accretes one accepted `L` per
full-window frame until it saturates at `HISTORY_SIZE`. -/
def posEmissao (L : String) (k : Nat) (st : State) : Prop :=
  st.ultimo_gesto = some L ∧
  st.buffer.length = min k SEQUENCE_LENGTH ∧
  st.prediction_history = List.replicate (min (1 + (k - 29)) HISTORY_SIZE) L

/-- The state shape `j` frames after the classifier switched to label `M`
from the `L`-saturated steady state: the window stays full and sliding, and
`j` accepted `M` votes have displaced the oldest `L` votes, not yet enough
to change the majority. -/
def transicaoB (L M : String) (j : Nat) (st : State) : Prop :=
  st.ultimo_gesto = some L ∧
  st.buffer.length = SEQUENCE_LENGTH ∧
  st.prediction_history =
    List.replicate (HISTORY_SIZE - j) L ++ List.replicate j M

/-- The states reachable after the second emission (`M`): the window was
cleared and refills, the history keeps the surviving leading `L` votes
followed by a strict `M` majority of at least eight votes. -/
def posEmissaoB (L M : String) (st : State) : Prop :=
  st.ultimo_gesto = some M ∧
  st.buffer.length ≤ SEQUENCE_LENGTH ∧
  ∃ a b, a + b = HISTORY_SIZE ∧ 8 ≤ b ∧
    st.prediction_history = List.replicate a L ++ List.replicate b M

/-! ### Basic lemmas about the window deque -/

theorem dequeAppend_length (m : Nat) (xs : List α) (x : α) :
    (dequeAppend m xs x).length = min (xs.length + 1) m := by
  simp only [dequeAppend, List.length_drop, List.length_append, List.length_singleton]
  omega

theorem dequeAppend_of_lt (m : Nat) (xs : List α) (x : α) (h : xs.length < m) :
    dequeAppend m xs x = xs ++ [x] := by
  have h0 : xs.length + 1 - m = 0 := by omega
  simp [dequeAppend, h0]

theorem dequeAppend_full (m : Nat) (xs : List α) (x : α) (hm : 0 < m)
    (h : xs.length = m) : dequeAppend m xs x = xs.drop 1 ++ [x] := by
  cases xs with
  | nil => simp at h; omega
  | cons a t =>
    have h0 : t.length + 1 + 1 - m = 1 := by simp at h; omega
    simp [dequeAppend, h0]

theorem dequeAppend_replicate (m k : Nat) (x : α) :
    dequeAppend m (List.replicate k x) x = List.replicate (min (k + 1) m) x := by
  have h1 : List.replicate k x ++ [x] = List.replicate (k + 1) x :=
    (List.replicate_succ' k x).symm
  simp only [dequeAppend, h1, List.drop_replicate, List.length_replicate]
  congr 1
  omega

/-! ### Structure lemmas about `reconhecer` -/

theorem reconhecer_fst_snd (cfg : Config) (st : State) :
    (reconhecer cfg st).2.buffer = st.buffer ∧
    (reconhecer cfg st).2.ultimo_gesto = st.ultimo_gesto ∧
    (reconhecer cfg st).2.frames_sem_maos = st.frames_sem_maos ∧
    (reconhecer cfg st).2.ultima_confianca = st.ultima_confianca := by
  simp only [reconhecer]
  split_ifs <;> exact ⟨rfl, rfl, rfl, rfl⟩

theorem reconhecer_history (cfg : Config) (st : State) :
    (reconhecer cfg st).2.prediction_history = st.prediction_history ∨
    ∃ g, (reconhecer cfg st).2.prediction_history =
      dequeAppend HISTORY_SIZE st.prediction_history g := by
  simp only [reconhecer]
  split_ifs
  · exact .inl rfl
  · exact .inl rfl
  · exact .inr ⟨_, rfl⟩

theorem reconhecer_of_short (cfg : Config) (st : State)
    (h : st.buffer.length < SEQUENCE_LENGTH) :
    reconhecer cfg st = ((none, 0), st) := by
  simp [reconhecer, h]

theorem processar_frame_of_present (cfg : Config) (st : State) (hands : List Hand)
    (hh : hands.isEmpty = false) :
    processar_frame cfg st hands =
      etapa_emissao cfg { st with frames_sem_maos := 0,
                                  buffer := dequeAppend SEQUENCE_LENGTH st.buffer
                                    (processar_landmarks hands) } := by
  simp [processar_frame, hh]

/-! ### C9: the partial-window guard of the inference step -/

/-- C9 (confirmed): invoked on a window holding fewer than
`SEQUENCE_LENGTH` samples, `reconhecer` returns `(None, 0.0)` with the
state unchanged, and its result does not depend on the classifier at all
(the guard returns before `model.predict` is reached). -/
theorem reconhecer_guards_partial_window (classes : List String) (mc : ℚ)
    (model modelOther : List Sample → List ℚ) (st : State)
    (h : st.buffer.length < SEQUENCE_LENGTH) :
    reconhecer ⟨classes, mc, model⟩ st = ((none, 0), st) ∧
    reconhecer ⟨classes, mc, model⟩ st = reconhecer ⟨classes, mc, modelOther⟩ st := by
  constructor <;> simp [reconhecer, h]

/-- Witness for C9 at a 29-sample window: the guard fires and two entirely
different classifiers produce the same result. -/
theorem reconhecer_guards_partial_window_witness :
    reconhecer ⟨["A"], mkRat 7 10, fun _ => [mkRat 9 10]⟩ stC29 = ((none, 0), stC29) ∧
    reconhecer ⟨["A"], mkRat 7 10, fun _ => [mkRat 9 10]⟩ stC29 =
      reconhecer ⟨["A"], mkRat 7 10, fun _ => [mkRat 1 10]⟩ stC29 :=
  reconhecer_guards_partial_window ["A"] (mkRat 7 10) _ _ stC29 (by decide)

/-! ### C4: the presence tracker -/

/-- C4 (confirmed): a hand-absent frame pushes no sample and increments
`frames_sem_maos`; once the incremented counter exceeds `RESET_THRESHOLD`
with a non-empty window, window and history are cleared while
`ultimo_gesto` stays; otherwise window and history are untouched.  A frame
with at least one hand zeroes the counter and pushes the encoded sample:
the call is exactly the emission stage applied to the pushed state. -/
theorem presence_tracker_per_frame (cfg : Config) (st : State) :
    (processar_frame cfg st []).1.frames_sem_maos = st.frames_sem_maos + 1 ∧
    (processar_frame cfg st []).1.ultimo_gesto = st.ultimo_gesto ∧
    (processar_frame cfg st []).2.novo_reconhecimento = false ∧
    (RESET_THRESHOLD < st.frames_sem_maos + 1 ∧ 0 < st.buffer.length →
      (processar_frame cfg st []).1.buffer = [] ∧
      (processar_frame cfg st []).1.prediction_history = []) ∧
    (¬(RESET_THRESHOLD < st.frames_sem_maos + 1 ∧ 0 < st.buffer.length) →
      (processar_frame cfg st []).1.buffer = st.buffer ∧
      (processar_frame cfg st []).1.prediction_history = st.prediction_history) ∧
    ∀ hands : List Hand, hands.isEmpty = false →
      processar_frame cfg st hands =
        etapa_emissao cfg { st with frames_sem_maos := 0,
                                    buffer := dequeAppend SEQUENCE_LENGTH st.buffer
                                      (processar_landmarks hands) } := by
  by_cases hc : RESET_THRESHOLD < st.frames_sem_maos + 1 ∧ 0 < st.buffer.length
  · exact ⟨by simp [processar_frame, hc], by simp [processar_frame, hc],
      by simp [processar_frame, hc],
      fun _ => ⟨by simp [processar_frame, hc], by simp [processar_frame, hc]⟩,
      fun hn => absurd hc hn, fun hands hh => processar_frame_of_present cfg st hands hh⟩
  · exact ⟨by simp [processar_frame, hc], by simp [processar_frame, hc],
      by simp [processar_frame, hc], fun hy => absurd hy hc,
      fun _ => ⟨by simp [processar_frame, hc], by simp [processar_frame, hc]⟩,
      fun hands hh => processar_frame_of_present cfg st hands hh⟩

/-- Witness for C4: the 11th consecutive absent frame clears window and
history of `stAbsent` but keeps its `ultimo_gesto`; a `handA` frame on
`stC29` is the emission stage on the pushed state. -/
theorem presence_tracker_per_frame_witness :
    (processar_frame cfgC stAbsent []).1.buffer = [] ∧
    (processar_frame cfgC stAbsent []).1.prediction_history = [] ∧
    (processar_frame cfgC stAbsent []).1.ultimo_gesto = stAbsent.ultimo_gesto ∧
    processar_frame cfgC stC29 [handA] =
      etapa_emissao cfgC { stC29 with frames_sem_maos := 0,
                                      buffer := dequeAppend SEQUENCE_LENGTH stC29.buffer
                                        (processar_landmarks [handA]) } :=
  ⟨((presence_tracker_per_frame cfgC stAbsent).2.2.2.1 (by decide)).1,
   ((presence_tracker_per_frame cfgC stAbsent).2.2.2.1 (by decide)).2,
   (presence_tracker_per_frame cfgC stAbsent).2.1,
   (presence_tracker_per_frame cfgC stC29).2.2.2.2.2 [handA] (by decide)⟩

/-! ### C3: the confidence gate -/

/-- C3 (confirmed): on a hand-present frame whose top-class probability is
strictly below `min_confidence`, no vote is appended, no recognition fires,
and history and `ultimo_gesto` are left unchanged, whatever the label. -/
theorem confidence_gate (cfg : Config) (st : State) (hands : List Hand)
    (hh : hands.isEmpty = false)
    (hconf :
      (cfg.model (dequeAppend SEQUENCE_LENGTH st.buffer (processar_landmarks hands))).getD
        (np_argmax (cfg.model (dequeAppend SEQUENCE_LENGTH st.buffer (processar_landmarks hands)))) 0
        < cfg.min_confidence) :
    (processar_frame cfg st hands).2.novo_reconhecimento = false ∧
    (processar_frame cfg st hands).1.prediction_history = st.prediction_history ∧
    (processar_frame cfg st hands).1.ultimo_gesto = st.ultimo_gesto := by
  have hpf : processar_frame cfg st hands =
      etapa_emissao cfg { st with frames_sem_maos := 0,
                                  buffer := dequeAppend SEQUENCE_LENGTH st.buffer
                                    (processar_landmarks hands) } :=
    processar_frame_of_present cfg st hands hh
  rw [hpf]
  simp only [etapa_emissao]
  split_ifs with hfull
  · simp only [reconhecer]
    split_ifs with h1
    · simp at h1 hfull; omega
    · simp
  · exact ⟨rfl, rfl, rfl⟩

/-- Witness for C3: a 0.5-confidence classifier on a filling window. -/
theorem confidence_gate_witness :
    (processar_frame cfgLow stC29 [handA]).2.novo_reconhecimento = false ∧
    (processar_frame cfgLow stC29 [handA]).1.prediction_history = stC29.prediction_history ∧
    (processar_frame cfgLow stC29 [handA]).1.ultimo_gesto = stC29.ultimo_gesto :=
  confidence_gate cfgLow stC29 [handA] (by decide) (by decide)

/-! ### C1: the emission step -/

/-- C1 counterexample: on the 30th frame of the one-class recognizer the
recognition of "A" fires and the window is cleared, yet the vote history is
`["A"]`, not `[]` - `processar_frame` (line 198) clears only `self.buffer`,
so the claim that the emission clears both Window and VoteHistory is false
at this input. -/
theorem emission_keeps_history_counterexample :
    (processar_frame cfgC stC29 [handA]).2.novo_reconhecimento = true ∧
    (processar_frame cfgC stC29 [handA]).1.buffer = [] ∧
    (processar_frame cfgC stC29 [handA]).1.prediction_history = ["A"] := by
  decide

/-- C1 (corrected): when the vote of a hand-present frame produces a truthy
smoothed label differing from `ultimo_gesto`, the frame reports a new
recognition carrying that label and the triggering prediction's confidence,
sets `ultimo_gesto` to it, and clears the window only - the vote history is
left with its post-vote contents, not cleared. -/
theorem emission_clears_only_window (cfg : Config) (st : State) (hands : List Hand)
    (g : String) (c : ℚ) (st1 : State)
    (hh : hands.isEmpty = false)
    (hrec : reconhecer cfg { st with frames_sem_maos := 0,
                                     buffer := dequeAppend SEQUENCE_LENGTH st.buffer
                                       (processar_landmarks hands) } = ((some g, c), st1))
    (hg : g ≠ "") (hne : some g ≠ st.ultimo_gesto) :
    (processar_frame cfg st hands).2.novo_reconhecimento = true ∧
    (processar_frame cfg st hands).2.gesto = some g ∧
    (processar_frame cfg st hands).2.confianca = c ∧
    (processar_frame cfg st hands).1.ultimo_gesto = some g ∧
    (processar_frame cfg st hands).1.buffer = [] ∧
    (processar_frame cfg st hands).1.prediction_history = st1.prediction_history := by
  have hpf : processar_frame cfg st hands =
      etapa_emissao cfg { st with frames_sem_maos := 0,
                                  buffer := dequeAppend SEQUENCE_LENGTH st.buffer
                                    (processar_landmarks hands) } :=
    processar_frame_of_present cfg st hands hh
  have hu : st1.ultimo_gesto = st.ultimo_gesto := by
    have h2 := (reconhecer_fst_snd cfg { st with frames_sem_maos := 0,
                                                 buffer := dequeAppend SEQUENCE_LENGTH st.buffer
                                                   (processar_landmarks hands) }).2.1
    rw [hrec] at h2
    exact h2
  have hlen := dequeAppend_length SEQUENCE_LENGTH st.buffer (processar_landmarks hands)
  by_cases hfull : (dequeAppend SEQUENCE_LENGTH st.buffer (processar_landmarks hands)).length
      = SEQUENCE_LENGTH
  · rw [hpf]
    simp only [etapa_emissao]
    split_ifs
    rw [hrec]
    simp [hu, hg, hne]
  · exfalso
    have hlt : ({ st with frames_sem_maos := 0,
                          buffer := dequeAppend SEQUENCE_LENGTH st.buffer
                            (processar_landmarks hands) } : State).buffer.length
        < SEQUENCE_LENGTH := by
      simp only []
      omega
    have hshort := reconhecer_of_short cfg _ hlt
    rw [hrec] at hshort
    simp at hshort

/-- Witness for C1 as amended: the emission of the counterexample run,
reproduced through the general theorem. -/
theorem emission_clears_only_window_witness :
    (processar_frame cfgC stC29 [handA]).2.novo_reconhecimento = true ∧
    (processar_frame cfgC stC29 [handA]).2.gesto = some "A" ∧
    (processar_frame cfgC stC29 [handA]).2.confianca = mkRat 9 10 ∧
    (processar_frame cfgC stC29 [handA]).1.ultimo_gesto = some "A" ∧
    (processar_frame cfgC stC29 [handA]).1.buffer = [] ∧
    (processar_frame cfgC stC29 [handA]).1.prediction_history =
      (⟨List.replicate 30 sampleA, ["A"], 0, none, 0⟩ : State).prediction_history :=
  emission_clears_only_window cfgC stC29 [handA] "A" (mkRat 9 10)
    ⟨List.replicate 30 sampleA, ["A"], 0, none, 0⟩
    (by decide) (by decide) (by decide) (by decide)

/-! ### C5: classifier failure while processing a frame -/

/-- C5 counterexample: the lia-web `GestureRecognizer` has no `try`/`except`
around its classifier call, so when `model.predict` raises on the frame that
fills the window, the exception escapes the whole `processar_frame` call
(the surrounding loop catches only `KeyboardInterrupt`): the per-frame loop
does crash, rather than reporting the failure and skipping the frame. -/
theorem liaweb_inference_error_propagates :
    processar_frameE ["A"] (mkRat 7 10) (fun _ => Except.error "InferenceError")
      stC29 [handA] = Except.error "InferenceError" := by
  rfl

/-- C5 (corrected): in the GUI variant, whose inference is wrapped in
`try`/`except`, a classifier exception is reported through the feedback
label, the frame produces no recognition, and buffer, history and
`ultimo_gesto_reconhecido` are left untouched. -/
theorem gui_inference_error_recovered (classes : List String)
    (modelE : List Sample → Except String (List ℚ)) (alvo : String)
    (st : GuiState) (e : String) (h : modelE st.buffer_gestos = .error e) :
    reconhecer_gesto classes modelE alvo st = (st, .erro e) := by
  simp [reconhecer_gesto, h]

/-- Witness for C5 as amended: a throwing classifier on the empty GUI
state. -/
theorem gui_inference_error_recovered_witness :
    reconhecer_gesto ["A"] (fun _ => Except.error "InferenceError") "A"
      ⟨[], [], none, 0, 1⟩ = (⟨[], [], none, 0, 1⟩, .erro "InferenceError") :=
  gui_inference_error_recovered ["A"] _ "A" _ "InferenceError" rfl

/-! ### C10: the label/confidence pairing of an accepted inference -/

/-- C10 (confirmed): an accepted `reconhecer` call returns the current
frame's top-class probability as confidence while the returned label is the
majority label of the updated history; the concrete instance shows a frame
whose argmax class is "B" while the emitted pair is `("A", 0.9)`, so the
confidence belongs to a different label than the one reported. -/
theorem event_confidence_pairing :
    (∀ (cfg : Config) (st : State) (g : String) (c : ℚ) (st1 : State),
        reconhecer cfg st = ((some g, c), st1) →
        c = (cfg.model st.buffer).getD (np_argmax (cfg.model st.buffer)) 0 ∧
        g = gesto_mais_frequente (dequeAppend HISTORY_SIZE st.prediction_history
              (cfg.classes.getD (np_argmax (cfg.model st.buffer)) ""))) ∧
    (reconhecer cfgM stM).1 = (some "A", mkRat 9 10) ∧
    cfgM.classes.getD (np_argmax (cfgM.model stM.buffer)) "" = "B" ∧
    ("A" : String) ≠ "B" := by
  refine ⟨fun cfg st g c st1 h => ?_, by decide, by decide, by decide⟩
  simp only [reconhecer] at h
  split_ifs at h with h1 h2
  · simp at h
  · simp at h
  · simp only [Prod.mk.injEq, Option.some.injEq] at h
    exact ⟨h.1.2.symm, h.1.1.symm⟩

/-- Witness for C10: the accepted call on `stM` instantiates the general
pairing equations. -/
theorem event_confidence_pairing_witness :
    mkRat 9 10 = (cfgM.model stM.buffer).getD (np_argmax (cfgM.model stM.buffer)) 0 ∧
    "A" = gesto_mais_frequente (dequeAppend HISTORY_SIZE stM.prediction_history
            (cfgM.classes.getD (np_argmax (cfgM.model stM.buffer)) "")) :=
  event_confidence_pairing.1 cfgM stM "A" (mkRat 9 10)
    ⟨List.replicate 30 sampleA, ["A", "A", "B"], 0, none, 0⟩ (by decide)

/-! ### C7: the FIFO law of the window deque -/

theorem foldl_dequeAppend_of_le (m : Nat) :
    ∀ (l acc : List α), acc.length + l.length ≤ m →
      l.foldl (dequeAppend m) acc = acc ++ l := by
  intro l
  induction l with
  | nil => intro acc _; simp
  | cons x t ih =>
    intro acc h
    simp only [List.foldl_cons]
    rw [dequeAppend_of_lt m acc x (by simp at h; omega),
        ih (acc ++ [x]) (by simp at h ⊢; omega)]
    simp

/-- C7 (confirmed): pushing exactly `SEQUENCE_LENGTH` samples into the empty
window yields those samples in push order; one further push appends the new
sample and evicts exactly the oldest one. -/
theorem window_fifo_law (l : List Sample) (h : l.length = SEQUENCE_LENGTH) :
    l.foldl (dequeAppend SEQUENCE_LENGTH) [] = l ∧
    ∀ s, dequeAppend SEQUENCE_LENGTH l s = l.drop 1 ++ [s] := by
  refine ⟨?_, fun s => dequeAppend_full SEQUENCE_LENGTH l s (by decide) h⟩
  have hf := foldl_dequeAppend_of_le SEQUENCE_LENGTH l ([] : List Sample) (by simp [h])
  simpa using hf

/-- Witness for C7 on a window of 29 `sampleA` followed by one `sampleB`:
the pushes reproduce the list, and a 31st push drops only the head. -/
theorem window_fifo_law_witness :
    (List.replicate 29 sampleA ++ [sampleB]).foldl (dequeAppend SEQUENCE_LENGTH) [] =
      List.replicate 29 sampleA ++ [sampleB] ∧
    dequeAppend SEQUENCE_LENGTH (List.replicate 29 sampleA ++ [sampleB]) sampleB =
      (List.replicate 29 sampleA ++ [sampleB]).drop 1 ++ [sampleB] :=
  ⟨(window_fifo_law (List.replicate 29 sampleA ++ [sampleB]) (by decide)).1,
   (window_fifo_law (List.replicate 29 sampleA ++ [sampleB]) (by decide)).2 sampleB⟩

/-! ### C6: the size invariants of Window and VoteHistory -/

theorem reconhecer_history_le (cfg : Config) (st : State)
    (hh : st.prediction_history.length ≤ HISTORY_SIZE) :
    (reconhecer cfg st).2.prediction_history.length ≤ HISTORY_SIZE := by
  rcases reconhecer_history cfg st with h | ⟨g, h⟩
  · rw [h]; exact hh
  · rw [h, dequeAppend_length]; omega

theorem etapa_emissao_bounds (cfg : Config) (st : State)
    (hb : st.buffer.length ≤ SEQUENCE_LENGTH)
    (hh : st.prediction_history.length ≤ HISTORY_SIZE) :
    (etapa_emissao cfg st).1.buffer.length ≤ SEQUENCE_LENGTH ∧
    (etapa_emissao cfg st).1.prediction_history.length ≤ HISTORY_SIZE := by
  have hrb := (reconhecer_fst_snd cfg st).1
  have hrh := reconhecer_history_le cfg st hh
  simp only [etapa_emissao]
  split_ifs
  · rcases hg : (reconhecer cfg st).1.1 with _ | g
    · dsimp only
      exact ⟨by rw [hrb]; exact hb, hrh⟩
    · dsimp only
      by_cases hcond : g ≠ "" ∧ some g ≠ (reconhecer cfg st).2.ultimo_gesto
      · rw [if_pos hcond]
        exact ⟨by simp, hrh⟩
      · rw [if_neg hcond]
        exact ⟨by rw [hrb]; exact hb, hrh⟩
  · exact ⟨hb, hh⟩

theorem runOp_bounds (cfg : Config) (st : State) (op : Op)
    (hb : st.buffer.length ≤ SEQUENCE_LENGTH)
    (hh : st.prediction_history.length ≤ HISTORY_SIZE) :
    (runOp cfg st op).buffer.length ≤ SEQUENCE_LENGTH ∧
    (runOp cfg st op).prediction_history.length ≤ HISTORY_SIZE := by
  cases op with
  | frame i =>
    by_cases hi : i.isEmpty
    · simp only [runOp, processar_frame, hi, if_true]
      split_ifs <;> exact ⟨by simp [hb], by simp [hh]⟩
    · have hp := processar_frame_of_present cfg st i (by simpa using hi)
      simp only [runOp, hp]
      exact etapa_emissao_bounds cfg _ (by simp [dequeAppend_length]) hh
  | push s =>
    refine ⟨?_, hh⟩
    simp only [runOp]
    rw [dequeAppend_length]
    omega
  | clearWindow => exact ⟨by simp [runOp], hh⟩
  | reset => exact ⟨by simp [runOp, reset], by simp [runOp, reset]⟩

/-- C6 (confirmed): over every sequence of `processar_frame`, `push`,
`clear` and `reset` operations from the initial state, the window never
holds more than `SEQUENCE_LENGTH = 30` samples and the vote history never
holds more than `HISTORY_SIZE = 15` labels. -/
theorem window_history_bounds (cfg : Config) (ops : List Op) :
    (runOps cfg initState ops).buffer.length ≤ SEQUENCE_LENGTH ∧
    (runOps cfg initState ops).prediction_history.length ≤ HISTORY_SIZE := by
  suffices h : ∀ (ops : List Op) (st : State),
      st.buffer.length ≤ SEQUENCE_LENGTH →
      st.prediction_history.length ≤ HISTORY_SIZE →
      (runOps cfg st ops).buffer.length ≤ SEQUENCE_LENGTH ∧
      (runOps cfg st ops).prediction_history.length ≤ HISTORY_SIZE by
    exact h ops initState (by decide) (by decide)
  intro ops
  induction ops with
  | nil => intro st hb hh; exact ⟨hb, hh⟩
  | cons op t ih =>
    intro st hb hh
    have hstep := runOp_bounds cfg st op hb hh
    simpa only [runOps, List.foldl_cons] using ih (runOp cfg st op) hstep.1 hstep.2

/-! ### C8: the majority vote and its tie-break -/

theorem fsk_concat (l : List String) (g : String) :
    firstSeenKeys (l ++ [g]) =
      if g ∈ firstSeenKeys l then firstSeenKeys l else firstSeenKeys l ++ [g] := by
  simp only [firstSeenKeys, List.foldl_concat]

theorem fsk_mem (l : List String) (a : String) : a ∈ firstSeenKeys l ↔ a ∈ l := by
  induction l using List.reverseRecOn with
  | nil => simp [firstSeenKeys]
  | append_singleton l g ih =>
    rw [fsk_concat]
    by_cases hmem : g ∈ firstSeenKeys l
    · rw [if_pos hmem]
      simp only [ih, List.mem_append, List.mem_singleton]
      constructor
      · exact fun h => .inl h
      · rintro (h | rfl)
        · exact h
        · exact ih.mp hmem
    · rw [if_neg hmem]
      simp [ih]

theorem fsk_sorted (l : List String) :
    (firstSeenKeys l).Pairwise (fun a b => l.indexOf a < l.indexOf b) := by
  induction l using List.reverseRecOn with
  | nil => simp [firstSeenKeys]
  | append_singleton l g ih =>
    rw [fsk_concat]
    by_cases hmem : g ∈ firstSeenKeys l
    · rw [if_pos hmem]
      exact ih.imp_of_mem fun ha hb hr => by
        rw [List.indexOf_append_of_mem ((fsk_mem l _).mp ha),
            List.indexOf_append_of_mem ((fsk_mem l _).mp hb)]
        exact hr
    · rw [if_neg hmem]
      rw [List.pairwise_append]
      refine ⟨ih.imp_of_mem fun ha hb hr => by
        rw [List.indexOf_append_of_mem ((fsk_mem l _).mp ha),
            List.indexOf_append_of_mem ((fsk_mem l _).mp hb)]
        exact hr, by simp, ?_⟩
      intro a ha b hb
      have hbg : b = g := by simpa using hb
      rw [hbg]
      have hal : a ∈ l := (fsk_mem l a).mp ha
      have hgl : g ∉ l := fun hg => hmem ((fsk_mem l g).mpr hg)
      rw [List.indexOf_append_of_mem hal, List.indexOf_append_of_not_mem hgl,
          List.indexOf_cons_self]
      have := List.indexOf_lt_length.mpr hal
      omega

theorem escolhe_max_spec (hist : List String) :
    ∀ (ks : List String) (b : String),
      escolhe_max hist b ks ∈ b :: ks ∧
      (∀ x ∈ b :: ks, hist.count x ≤ hist.count (escolhe_max hist b ks)) ∧
      ∃ pre post, b :: ks = pre ++ escolhe_max hist b ks :: post ∧
        ∀ x ∈ pre, hist.count x < hist.count (escolhe_max hist b ks) := by
  intro ks
  induction ks with
  | nil =>
    intro b
    refine ⟨by simp [escolhe_max], ?_, [], [], by simp [escolhe_max], by simp⟩
    intro x hx
    simp only [List.mem_singleton] at hx
    simp [escolhe_max, hx]
  | cons k t ih =>
    intro b
    by_cases hbk : hist.count b < hist.count k
    · have he : escolhe_max hist b (k :: t) = escolhe_max hist k t := by
        simp [escolhe_max, hbk]
      rw [he]
      obtain ⟨hmem, hbound, pre, post, hsplit, hpre⟩ := ih k
      have hkr := hbound k (by simp)
      refine ⟨List.mem_cons_of_mem b hmem, ?_, b :: pre, post, ?_, ?_⟩
      · intro x hx
        rcases List.mem_cons.mp hx with rfl | hx'
        · exact le_of_lt (lt_of_lt_of_le hbk hkr)
        · exact hbound x hx'
      · rw [List.cons_append, ← hsplit]
      · intro x hx
        rcases List.mem_cons.mp hx with rfl | hx'
        · exact lt_of_lt_of_le hbk hkr
        · exact hpre x hx'
    · have he : escolhe_max hist b (k :: t) = escolhe_max hist b t := by
        simp [escolhe_max, hbk]
      rw [he]
      obtain ⟨hmem, hbound, pre, post, hsplit, hpre⟩ := ih b
      have hbr := hbound b (by simp)
      have hkb : hist.count k ≤ hist.count b := Nat.le_of_not_lt hbk
      have hmem' : escolhe_max hist b t ∈ b :: k :: t := by
        rcases List.mem_cons.mp hmem with h | h
        · rw [h]; exact List.mem_cons_self b (k :: t)
        · exact List.mem_cons_of_mem b (List.mem_cons_of_mem k h)
      have hbound' : ∀ x ∈ b :: k :: t, hist.count x ≤ hist.count (escolhe_max hist b t) := by
        intro x hx
        rcases List.mem_cons.mp hx with rfl | hx'
        · exact hbr
        · rcases List.mem_cons.mp hx' with rfl | hx2
          · exact le_trans hkb hbr
          · exact hbound x (List.mem_cons_of_mem b hx2)
      refine ⟨hmem', hbound', ?_⟩
      cases pre with
      | nil =>
        simp only [List.nil_append] at hsplit
        refine ⟨[], k :: post, ?_, by simp⟩
        simp only [List.nil_append]
        rw [List.cons.injEq] at hsplit ⊢
        exact ⟨hsplit.1, by rw [List.cons.injEq]; exact ⟨rfl, hsplit.2⟩⟩
      | cons p0 pre2 =>
        rw [List.cons_append, List.cons.injEq] at hsplit
        obtain ⟨hp0, ht⟩ := hsplit
        have hp0pre : hist.count p0 < hist.count (escolhe_max hist b t) :=
          hpre p0 (List.mem_cons_self p0 pre2)
        rw [← hp0] at hp0pre
        refine ⟨b :: k :: pre2, post, ?_, ?_⟩
        · rw [List.cons_append, List.cons_append, List.cons.injEq]
          exact ⟨rfl, by rw [List.cons.injEq]; exact ⟨rfl, ht⟩⟩
        · intro x hx
          rcases List.mem_cons.mp hx with rfl | hx'
          · exact hp0pre
          · rcases List.mem_cons.mp hx' with rfl | hx2
            · exact lt_of_le_of_lt hkb hp0pre
            · exact hpre x (List.mem_cons_of_mem p0 hx2)

/-- C8 (confirmed): `gesto_mais_frequente` returns a label of the history
with maximal multiplicity, and among the labels tied at the maximal count it
returns the one whose first occurrence in the current history contents is
earliest (Python dicts preserve insertion order and `max` keeps the first
maximal item, so the choice is deterministic). -/
theorem majority_vote_tie_break (hist : List String) (hne : hist ≠ []) :
    gesto_mais_frequente hist ∈ hist ∧
    (∀ g ∈ hist, hist.count g ≤ hist.count (gesto_mais_frequente hist)) ∧
    (∀ g ∈ hist, hist.count g = hist.count (gesto_mais_frequente hist) →
      hist.indexOf (gesto_mais_frequente hist) ≤ hist.indexOf g) := by
  obtain ⟨h0, t, rfl⟩ : ∃ h0 t, hist = h0 :: t := by
    cases hist with
    | nil => exact absurd rfl hne
    | cons h0 t => exact ⟨h0, t, rfl⟩
  obtain ⟨k, ks, hk⟩ : ∃ k ks, firstSeenKeys (h0 :: t) = k :: ks := by
    cases hfsk : firstSeenKeys (h0 :: t) with
    | nil =>
      have : h0 ∈ firstSeenKeys (h0 :: t) := (fsk_mem _ _).mpr (by simp)
      rw [hfsk] at this
      simp at this
    | cons k ks => exact ⟨k, ks, rfl⟩
  have hgmf : gesto_mais_frequente (h0 :: t) = escolhe_max (h0 :: t) k ks := by
    simp [gesto_mais_frequente, hk]
  rw [hgmf]
  obtain ⟨hmem, hbound, pre, post, hsplit, hpre⟩ := escolhe_max_spec (h0 :: t) ks k
  refine ⟨(fsk_mem _ _).mp (hk ▸ hmem), fun g hg => hbound g (hk ▸ (fsk_mem _ _).mpr hg),
    fun g hg hcnt => ?_⟩
  have hgk : g ∈ k :: ks := hk ▸ (fsk_mem _ _).mpr hg
  have hsorted := fsk_sorted (h0 :: t)
  rw [hk, hsplit] at hsorted
  have hpair := (List.pairwise_append.mp hsorted).2.1
  have hgnotpre : g ∉ pre := fun hgp => by
    have := hpre g hgp
    omega
  have hgrp : g ∈ escolhe_max (h0 :: t) k ks :: post := by
    have hgall : g ∈ pre ++ escolhe_max (h0 :: t) k ks :: post := hsplit ▸ hgk
    rcases List.mem_append.mp hgall with h | h
    · exact absurd h hgnotpre
    · exact h
  rcases List.mem_cons.mp hgrp with rfl | hgpost
  · exact le_refl _
  · exact le_of_lt ((List.pairwise_cons.mp hpair).1 g hgpost)

/-- Witness for C8: in `["B", "A", "A", "B", "C"]` labels "A" and "B" tie at
count 2, and the vote resolves to "B", whose first occurrence is earliest. -/
theorem majority_vote_tie_break_witness :
    gesto_mais_frequente ["B", "A", "A", "B", "C"] ∈ ["B", "A", "A", "B", "C"] ∧
    (∀ g ∈ ["B", "A", "A", "B", "C"],
      List.count g ["B", "A", "A", "B", "C"] ≤
        List.count (gesto_mais_frequente ["B", "A", "A", "B", "C"]) ["B", "A", "A", "B", "C"]) ∧
    (∀ g ∈ ["B", "A", "A", "B", "C"],
      List.count g ["B", "A", "A", "B", "C"] =
          List.count (gesto_mais_frequente ["B", "A", "A", "B", "C"]) ["B", "A", "A", "B", "C"] →
        List.indexOf (gesto_mais_frequente ["B", "A", "A", "B", "C"]) ["B", "A", "A", "B", "C"] ≤
          List.indexOf g ["B", "A", "A", "B", "C"]) :=
  majority_vote_tie_break ["B", "A", "A", "B", "C"] (by decide)

/-! ### C2: lemmas about runs of frames -/

theorem runState_append (cfg : Config) (st : State) (xs ys : List (List Hand)) :
    runState cfg st (xs ++ ys) = runState cfg (runState cfg st xs) ys := by
  simp [runState, List.foldl_append]

theorem runEvents_cons (cfg : Config) (st : State) (i : List Hand) (rest : List (List Hand)) :
    runEvents cfg st (i :: rest) =
      (if (processar_frame cfg st i).2.novo_reconhecimento then
        [((processar_frame cfg st i).2.gesto, (processar_frame cfg st i).2.confianca)]
      else []) ++ runEvents cfg (processar_frame cfg st i).1 rest := rfl

theorem runEvents_append (cfg : Config) :
    ∀ (xs : List (List Hand)) (st : State) (ys : List (List Hand)),
      runEvents cfg st (xs ++ ys) =
        runEvents cfg st xs ++ runEvents cfg (runState cfg st xs) ys := by
  intro xs
  induction xs with
  | nil => intro st ys; simp [runEvents, runState]
  | cons i t ih =>
    intro st ys
    rw [List.cons_append, runEvents_cons, runEvents_cons, ih]
    simp [runState, List.foldl_cons]

theorem runEvents_of_inv_idx (cfg : Config) (P : Nat → State → Prop)
    (hstep : ∀ (k : Nat) (st : State) (i : List Hand), P k st → i.isEmpty = false →
      (processar_frame cfg st i).2.novo_reconhecimento = false ∧
      P (k + 1) (processar_frame cfg st i).1) :
    ∀ (l : List (List Hand)) (k : Nat) (st : State), P k st →
      (∀ i ∈ l, i.isEmpty = false) →
      runEvents cfg st l = [] ∧ P (k + l.length) (runState cfg st l) := by
  intro l
  induction l with
  | nil => intro k st h _; exact ⟨rfl, by simpa [runState] using h⟩
  | cons i t ih =>
    intro k st h hpres
    obtain ⟨h1, h2⟩ := hstep k st i h (hpres i (List.mem_cons_self i t))
    obtain ⟨ih1, ih2⟩ := ih (k + 1) (processar_frame cfg st i).1 h2
      (fun j hj => hpres j (List.mem_cons_of_mem i hj))
    rw [runEvents_cons, h1]
    refine ⟨by simpa using ih1, ?_⟩
    have hk : k + (i :: t).length = k + 1 + t.length := by simp; omega
    rw [hk]
    simpa [runState, List.foldl_cons] using ih2

/-! ### C2: lemmas about the vote of homogeneous histories -/

theorem foldl_fsk_step_of_mem (x : String) :
    ∀ (k : Nat) (acc : List String), x ∈ acc →
      (List.replicate k x).foldl (fun acc g => if g ∈ acc then acc else acc ++ [g]) acc
        = acc := by
  intro k
  induction k with
  | zero => intro acc _; rfl
  | succ k ih =>
    intro acc hx
    rw [List.replicate_succ, List.foldl_cons, if_pos hx]
    exact ih acc hx

theorem foldl_fsk_step_replicate (x : String) (k : Nat) (hk : 1 ≤ k) (acc : List String) :
    (List.replicate k x).foldl (fun acc g => if g ∈ acc then acc else acc ++ [g]) acc
      = if x ∈ acc then acc else acc ++ [x] := by
  cases k with
  | zero => omega
  | succ k =>
    rw [List.replicate_succ, List.foldl_cons]
    by_cases hx : x ∈ acc
    · rw [if_pos hx]
      exact foldl_fsk_step_of_mem x k acc hx
    · rw [if_neg hx]
      exact foldl_fsk_step_of_mem x k (acc ++ [x]) (by simp)

theorem fsk_replicate (k : Nat) (hk : 1 ≤ k) (x : String) :
    firstSeenKeys (List.replicate k x) = [x] := by
  rw [firstSeenKeys, foldl_fsk_step_replicate x k hk []]
  simp

theorem gmf_replicate (k : Nat) (hk : 1 ≤ k) (x : String) :
    gesto_mais_frequente (List.replicate k x) = x := by
  simp [gesto_mais_frequente, fsk_replicate k hk x, escolhe_max]

theorem fsk_replicate_append (a b : Nat) (ha : 1 ≤ a) (hb : 1 ≤ b) (x y : String)
    (hxy : x ≠ y) :
    firstSeenKeys (List.replicate a x ++ List.replicate b y) = [x, y] := by
  rw [firstSeenKeys, List.foldl_append]
  rw [show (List.replicate a x).foldl (fun acc g => if g ∈ acc then acc else acc ++ [g]) []
      = [x] from by rw [foldl_fsk_step_replicate x a ha []]; simp]
  rw [foldl_fsk_step_replicate y b hb [x]]
  simp [hxy.symm]

theorem count_replicate_append_self (a b : Nat) (x y : String) (hxy : x ≠ y) :
    List.count x (List.replicate a x ++ List.replicate b y) = a ∧
    List.count y (List.replicate a x ++ List.replicate b y) = b := by
  have hyx : y ≠ x := fun h => hxy h.symm
  constructor <;> simp [List.count_append, List.count_replicate, hxy, hyx]

theorem gmf_second_wins (x y : String) (hxy : x ≠ y) (a b : Nat) (hab : a < b) :
    gesto_mais_frequente (List.replicate a x ++ List.replicate b y) = y := by
  cases a with
  | zero =>
    simp only [List.replicate_zero, List.nil_append]
    exact gmf_replicate b (by omega) y
  | succ a' =>
    have hfsk := fsk_replicate_append (a' + 1) b (by omega) (by omega) x y hxy
    have hcnt := count_replicate_append_self (a' + 1) b x y hxy
    simp only [gesto_mais_frequente, hfsk, escolhe_max, List.foldl_cons, List.foldl_nil]
    rw [hcnt.1, hcnt.2, if_pos hab]

theorem gmf_first_wins (x y : String) (hxy : x ≠ y) (a b : Nat) (hba : b < a) :
    gesto_mais_frequente (List.replicate a x ++ List.replicate b y) = x := by
  cases b with
  | zero =>
    simp only [List.replicate_zero, List.append_nil]
    exact gmf_replicate a (by omega) x
  | succ b' =>
    have hfsk := fsk_replicate_append a (b' + 1) (by omega) (by omega) x y hxy
    have hcnt := count_replicate_append_self a (b' + 1) x y hxy
    simp only [gesto_mais_frequente, hfsk, escolhe_max, List.foldl_cons, List.foldl_nil]
    rw [hcnt.1, hcnt.2, if_neg (by omega)]

theorem dequeAppend_mixed (x y : String) (a b : Nat) (hab : a + b = HISTORY_SIZE) :
    dequeAppend HISTORY_SIZE (List.replicate a x ++ List.replicate b y) y =
      if a = 0 then List.replicate HISTORY_SIZE y
      else List.replicate (a - 1) x ++ List.replicate (b + 1) y := by
  cases a with
  | zero =>
    simp only [List.replicate_zero, List.nil_append, if_pos rfl]
    rw [dequeAppend_replicate]
    congr 1
    simp only [HISTORY_SIZE] at hab ⊢
    omega
  | succ a' =>
    rw [if_neg (by omega)]
    have hlen : (List.replicate (a' + 1) x ++ List.replicate b y ++ [y]).length
        - HISTORY_SIZE = 1 := by
      simp only [List.length_append, List.length_replicate, List.length_singleton]
      simp only [HISTORY_SIZE] at hab ⊢
      omega
    rw [dequeAppend, hlen, List.replicate_succ, List.cons_append, List.cons_append,
        List.drop_succ_cons, List.drop_zero, List.append_assoc,
        ← List.replicate_succ' b y]
    simp

set_option maxRecDepth 4000000

/-! ### C2: the accepted-inference shape -/

theorem reconhecer_accepted (cfg : Config) (st : State)
    (hlen : ¬ st.buffer.length < SEQUENCE_LENGTH)
    (hgate : ¬ (cfg.model st.buffer).getD (np_argmax (cfg.model st.buffer)) 0
      < cfg.min_confidence) :
    reconhecer cfg st =
      ((some (gesto_mais_frequente (dequeAppend HISTORY_SIZE st.prediction_history
          (cfg.classes.getD (np_argmax (cfg.model st.buffer)) ""))),
        (cfg.model st.buffer).getD (np_argmax (cfg.model st.buffer)) 0),
       { st with prediction_history :=
                   dequeAppend HISTORY_SIZE st.prediction_history
                     (cfg.classes.getD (np_argmax (cfg.model st.buffer)) "") }) := by
  simp only [reconhecer]
  rw [if_neg hlen, if_neg hgate]

theorem processar_frame_empurra (cfg : Config) (st : State) (i : List Hand)
    (hi : i.isEmpty = false) :
    processar_frame cfg st i = etapa_emissao cfg (empurra st i) :=
  processar_frame_of_present cfg st i hi

theorem etapa_emissao_no_change (cfg : Config) (st : State)
    (hlen : st.buffer.length = SEQUENCE_LENGTH)
    (hgate : ¬ (cfg.model st.buffer).getD (np_argmax (cfg.model st.buffer)) 0
      < cfg.min_confidence)
    (hsame : some (gesto_mais_frequente (dequeAppend HISTORY_SIZE st.prediction_history
        (cfg.classes.getD (np_argmax (cfg.model st.buffer)) ""))) = st.ultimo_gesto) :
    etapa_emissao cfg st =
      ({ st with prediction_history := dequeAppend HISTORY_SIZE st.prediction_history
                   (cfg.classes.getD (np_argmax (cfg.model st.buffer)) "") },
       ⟨st.ultimo_gesto, st.ultima_confianca, false⟩) := by
  have hacc := reconhecer_accepted cfg st (by rw [hlen]; exact Nat.lt_irrefl _) hgate
  simp only [etapa_emissao]
  rw [if_pos hlen, hacc]
  dsimp only
  rw [if_neg (by intro h; exact h.2 hsame)]

theorem etapa_emissao_emits (cfg : Config) (st : State)
    (hlen : st.buffer.length = SEQUENCE_LENGTH)
    (hgate : ¬ (cfg.model st.buffer).getD (np_argmax (cfg.model st.buffer)) 0
      < cfg.min_confidence)
    (hne : gesto_mais_frequente (dequeAppend HISTORY_SIZE st.prediction_history
        (cfg.classes.getD (np_argmax (cfg.model st.buffer)) "")) ≠ "")
    (hdiff : some (gesto_mais_frequente (dequeAppend HISTORY_SIZE st.prediction_history
        (cfg.classes.getD (np_argmax (cfg.model st.buffer)) ""))) ≠ st.ultimo_gesto) :
    etapa_emissao cfg st =
      ({ st with buffer := [],
                 prediction_history := dequeAppend HISTORY_SIZE st.prediction_history
                   (cfg.classes.getD (np_argmax (cfg.model st.buffer)) ""),
                 ultimo_gesto := some (gesto_mais_frequente (dequeAppend HISTORY_SIZE
                   st.prediction_history
                   (cfg.classes.getD (np_argmax (cfg.model st.buffer)) ""))),
                 ultima_confianca := (cfg.model st.buffer).getD
                   (np_argmax (cfg.model st.buffer)) 0 },
       ⟨some (gesto_mais_frequente (dequeAppend HISTORY_SIZE st.prediction_history
           (cfg.classes.getD (np_argmax (cfg.model st.buffer)) ""))),
        (cfg.model st.buffer).getD (np_argmax (cfg.model st.buffer)) 0, true⟩) := by
  have hacc := reconhecer_accepted cfg st (by rw [hlen]; exact Nat.lt_irrefl _) hgate
  simp only [etapa_emissao]
  rw [if_pos hlen, hacc]
  dsimp only
  rw [if_pos ⟨hne, hdiff⟩]

/-! ### C2: the filling phase -/

theorem fill_phase (cfg : Config) :
    ∀ (l : List (List Hand)) (st : State),
      (∀ i ∈ l, i.isEmpty = false) →
      st.buffer.length + l.length ≤ 29 →
      runEvents cfg st l = [] ∧
      (runState cfg st l).buffer.length = st.buffer.length + l.length ∧
      (runState cfg st l).prediction_history = st.prediction_history ∧
      (runState cfg st l).ultimo_gesto = st.ultimo_gesto := by
  intro l
  induction l with
  | nil => intro st _ _; exact ⟨rfl, by simp [runState], rfl, rfl⟩
  | cons i t ih =>
    intro st hpres hlen
    have hi : i.isEmpty = false := hpres i (List.mem_cons_self i t)
    simp only [List.length_cons] at hlen
    have hplen : (empurra st i).buffer.length = st.buffer.length + 1 := by
      show (dequeAppend SEQUENCE_LENGTH st.buffer (processar_landmarks i)).length
        = st.buffer.length + 1
      rw [dequeAppend_length]
      simp only [SEQUENCE_LENGTH]
      omega
    have hstep : processar_frame cfg st i =
        (empurra st i, ⟨(empurra st i).ultimo_gesto,
          (empurra st i).ultima_confianca, false⟩) := by
      rw [processar_frame_empurra cfg st i hi]
      simp only [etapa_emissao]
      rw [if_neg (by rw [hplen]; simp only [SEQUENCE_LENGTH]; omega)]
    obtain ⟨ih1, ih2, ih3, ih4⟩ := ih (empurra st i)
      (fun j hj => hpres j (List.mem_cons_of_mem i hj))
      (by rw [hplen]; omega)
    have hrs : runState cfg st (i :: t) = runState cfg (empurra st i) t := by
      simp [runState, List.foldl_cons, hstep]
    refine ⟨?_, ?_, ?_, ?_⟩
    · rw [runEvents_cons, hstep]
      simpa using ih1
    · rw [hrs, ih2, hplen, List.length_cons]
      omega
    · rw [hrs]; exact ih3
    · rw [hrs]; exact ih4

/-! ### C2: the phase after the first emission -/

theorem step_posEmissao (cfg : Config) (L : String) (hL : classifica_sempre cfg L) :
    ∀ (k : Nat) (st : State) (i : List Hand), posEmissao L k st → i.isEmpty = false →
      (processar_frame cfg st i).2.novo_reconhecimento = false ∧
      posEmissao L (k + 1) (processar_frame cfg st i).1 := by
  intro k st i hP hi
  obtain ⟨hult, hblen, hhist⟩ := hP
  rw [processar_frame_empurra cfg st i hi]
  by_cases hfull : SEQUENCE_LENGTH ≤ k + 1
  · have hplen : (empurra st i).buffer.length = SEQUENCE_LENGTH := by
      show (dequeAppend SEQUENCE_LENGTH st.buffer (processar_landmarks i)).length
        = SEQUENCE_LENGTH
      rw [dequeAppend_length, hblen]
      simp only [SEQUENCE_LENGTH] at hfull ⊢
      omega
    have hw := hL (empurra st i).buffer hplen
    have hsame : some (gesto_mais_frequente (dequeAppend HISTORY_SIZE
        (empurra st i).prediction_history
        (cfg.classes.getD (np_argmax (cfg.model (empurra st i).buffer)) ""))) =
        (empurra st i).ultimo_gesto := by
      rw [hw.1, show (empurra st i).prediction_history = st.prediction_history from rfl,
          hhist, dequeAppend_replicate,
          gmf_replicate _ (by simp only [HISTORY_SIZE]; omega) L,
          show (empurra st i).ultimo_gesto = st.ultimo_gesto from rfl, hult]
    rw [etapa_emissao_no_change cfg (empurra st i) hplen hw.2 hsame]
    refine ⟨rfl, hult, ?_, ?_⟩
    · show (empurra st i).buffer.length = min (k + 1) SEQUENCE_LENGTH
      rw [hplen]
      simp only [SEQUENCE_LENGTH] at hfull ⊢
      omega
    · show dequeAppend HISTORY_SIZE (empurra st i).prediction_history
        (cfg.classes.getD (np_argmax (cfg.model (empurra st i).buffer)) "") =
        List.replicate (min (1 + (k + 1 - 29)) HISTORY_SIZE) L
      rw [hw.1, show (empurra st i).prediction_history = st.prediction_history from rfl,
          hhist, dequeAppend_replicate]
      congr 1
      simp only [SEQUENCE_LENGTH] at hfull
      simp only [HISTORY_SIZE]
      omega
  · have hplen : (empurra st i).buffer.length = k + 1 := by
      show (dequeAppend SEQUENCE_LENGTH st.buffer (processar_landmarks i)).length = k + 1
      rw [dequeAppend_length, hblen]
      simp only [SEQUENCE_LENGTH] at hfull ⊢
      omega
    simp only [etapa_emissao]
    rw [if_neg (by rw [hplen]; simp only [SEQUENCE_LENGTH] at hfull ⊢; omega)]
    refine ⟨rfl, hult, ?_, ?_⟩
    · show (empurra st i).buffer.length = min (k + 1) SEQUENCE_LENGTH
      rw [hplen]
      simp only [SEQUENCE_LENGTH] at hfull ⊢
      omega
    · show st.prediction_history = List.replicate (min (1 + (k + 1 - 29)) HISTORY_SIZE) L
      rw [hhist]
      congr 1
      simp only [SEQUENCE_LENGTH] at hfull
      simp only [HISTORY_SIZE]
      omega

/-! ### C2: the frame that fires the first event -/

theorem fire_first (cfg : Config) (L : String) (hL0 : L ≠ "")
    (hL : classifica_sempre cfg L) (st : State) (i : List Hand)
    (hi : i.isEmpty = false)
    (hblen : st.buffer.length = 29)
    (hhist : st.prediction_history = [])
    (hult : st.ultimo_gesto = none) :
    (processar_frame cfg st i).2.novo_reconhecimento = true ∧
    (processar_frame cfg st i).2.gesto = some L ∧
    posEmissao L 0 (processar_frame cfg st i).1 := by
  rw [processar_frame_empurra cfg st i hi]
  have hplen : (empurra st i).buffer.length = SEQUENCE_LENGTH := by
    show (dequeAppend SEQUENCE_LENGTH st.buffer (processar_landmarks i)).length
      = SEQUENCE_LENGTH
    rw [dequeAppend_length, hblen]
    decide
  have hw := hL (empurra st i).buffer hplen
  have hgmf : gesto_mais_frequente (dequeAppend HISTORY_SIZE
      (empurra st i).prediction_history
      (cfg.classes.getD (np_argmax (cfg.model (empurra st i).buffer)) "")) = L := by
    rw [hw.1, show (empurra st i).prediction_history = st.prediction_history from rfl,
        hhist]
    show gesto_mais_frequente (dequeAppend HISTORY_SIZE (List.replicate 0 L) L) = L
    rw [dequeAppend_replicate]
    exact gmf_replicate _ (by decide) L
  have hne : gesto_mais_frequente (dequeAppend HISTORY_SIZE
      (empurra st i).prediction_history
      (cfg.classes.getD (np_argmax (cfg.model (empurra st i).buffer)) "")) ≠ "" := by
    rw [hgmf]; exact hL0
  have hdiff : some (gesto_mais_frequente (dequeAppend HISTORY_SIZE
      (empurra st i).prediction_history
      (cfg.classes.getD (np_argmax (cfg.model (empurra st i).buffer)) ""))) ≠
      (empurra st i).ultimo_gesto := by
    rw [hgmf, show (empurra st i).ultimo_gesto = st.ultimo_gesto from rfl, hult]
    exact Option.some_ne_none L
  rw [etapa_emissao_emits cfg (empurra st i) hplen hw.2 hne hdiff]
  refine ⟨rfl, congrArg Option.some hgmf, congrArg Option.some hgmf, ?_, ?_⟩
  · show (0 : Nat) = min 0 SEQUENCE_LENGTH
    decide
  · show dequeAppend HISTORY_SIZE (empurra st i).prediction_history
      (cfg.classes.getD (np_argmax (cfg.model (empurra st i).buffer)) "") =
      List.replicate (min (1 + (0 - 29)) HISTORY_SIZE) L
    rw [hw.1, show (empurra st i).prediction_history = st.prediction_history from rfl,
        hhist]
    show dequeAppend HISTORY_SIZE (List.replicate 0 L) L = _
    rw [dequeAppend_replicate]

/-! ### C2: one step of the label transition (old label still holds the vote) -/

theorem step_transicao (cfg : Config) (L M : String) (hLM : M ≠ L)
    (hM : classifica_sempre cfg M) (j : Nat) (hj : j ≤ 6) (st : State)
    (i : List Hand) (hi : i.isEmpty = false) (hT : transicaoB L M j st) :
    (processar_frame cfg st i).2.novo_reconhecimento = false ∧
    transicaoB L M (j + 1) (processar_frame cfg st i).1 := by
  obtain ⟨hult, hblen, hhist⟩ := hT
  rw [processar_frame_empurra cfg st i hi]
  have hplen : (empurra st i).buffer.length = SEQUENCE_LENGTH := by
    show (dequeAppend SEQUENCE_LENGTH st.buffer (processar_landmarks i)).length
      = SEQUENCE_LENGTH
    rw [dequeAppend_length, hblen]
    decide
  have hw := hM (empurra st i).buffer hplen
  have hmix := dequeAppend_mixed L M (HISTORY_SIZE - j) j (by simp only [HISTORY_SIZE]; omega)
  rw [if_neg (by simp only [HISTORY_SIZE]; omega)] at hmix
  have hgmf : gesto_mais_frequente (dequeAppend HISTORY_SIZE
      (empurra st i).prediction_history
      (cfg.classes.getD (np_argmax (cfg.model (empurra st i).buffer)) "")) = L := by
    rw [hw.1, show (empurra st i).prediction_history = st.prediction_history from rfl,
        hhist, hmix]
    exact gmf_first_wins L M (fun h => hLM h.symm) (HISTORY_SIZE - j - 1) (j + 1)
      (by simp only [HISTORY_SIZE]; omega)
  have hsame : some (gesto_mais_frequente (dequeAppend HISTORY_SIZE
      (empurra st i).prediction_history
      (cfg.classes.getD (np_argmax (cfg.model (empurra st i).buffer)) ""))) =
      (empurra st i).ultimo_gesto := by
    rw [hgmf, show (empurra st i).ultimo_gesto = st.ultimo_gesto from rfl, hult]
  rw [etapa_emissao_no_change cfg (empurra st i) hplen hw.2 hsame]
  refine ⟨rfl, hult, hplen, ?_⟩
  show dequeAppend HISTORY_SIZE (empurra st i).prediction_history
    (cfg.classes.getD (np_argmax (cfg.model (empurra st i).buffer)) "") =
    List.replicate (HISTORY_SIZE - (j + 1)) L ++ List.replicate (j + 1) M
  rw [hw.1, show (empurra st i).prediction_history = st.prediction_history from rfl,
      hhist, hmix, show HISTORY_SIZE - j - 1 = HISTORY_SIZE - (j + 1) from by omega]

/-! ### C2: the transition phase keeps silent while the old label holds -/

theorem transicao_phase (cfg : Config) (L M : String) (hLM : M ≠ L)
    (hM : classifica_sempre cfg M) :
    ∀ (l : List (List Hand)) (j : Nat) (st : State),
      (∀ i ∈ l, i.isEmpty = false) → j + l.length ≤ 7 → transicaoB L M j st →
      runEvents cfg st l = [] ∧ transicaoB L M (j + l.length) (runState cfg st l) := by
  intro l
  induction l with
  | nil => intro j st _ _ hT; exact ⟨rfl, by simpa [runState] using hT⟩
  | cons i t ih =>
    intro j st hpres hbound hT
    simp only [List.length_cons] at hbound ⊢
    obtain ⟨h1, h2⟩ := step_transicao cfg L M hLM hM j (by omega) st i
      (hpres i (List.mem_cons_self i t)) hT
    obtain ⟨ih1, ih2⟩ := ih (j + 1) (processar_frame cfg st i).1
      (fun x hx => hpres x (List.mem_cons_of_mem i hx)) (by omega) h2
    refine ⟨?_, ?_⟩
    · rw [runEvents_cons, h1]
      simpa using ih1
    · rw [show j + (t.length + 1) = j + 1 + t.length from by omega,
          show runState cfg st (i :: t) = runState cfg (processar_frame cfg st i).1 t
            from by simp [runState, List.foldl_cons]]
      exact ih2

/-! ### C2: the frame that fires the second, distinct event -/

theorem fire_second (cfg : Config) (L M : String) (hM0 : M ≠ "") (hLM : M ≠ L)
    (hM : classifica_sempre cfg M) (st : State) (i : List Hand)
    (hi : i.isEmpty = false) (hT : transicaoB L M 7 st) :
    (processar_frame cfg st i).2.novo_reconhecimento = true ∧
    (processar_frame cfg st i).2.gesto = some M ∧
    posEmissaoB L M (processar_frame cfg st i).1 := by
  obtain ⟨hult, hblen, hhist⟩ := hT
  rw [processar_frame_empurra cfg st i hi]
  have hplen : (empurra st i).buffer.length = SEQUENCE_LENGTH := by
    show (dequeAppend SEQUENCE_LENGTH st.buffer (processar_landmarks i)).length
      = SEQUENCE_LENGTH
    rw [dequeAppend_length, hblen]
    decide
  have hw := hM (empurra st i).buffer hplen
  have hmix := dequeAppend_mixed L M (HISTORY_SIZE - 7) 7 (by decide)
  rw [if_neg (by decide)] at hmix
  have hgmf : gesto_mais_frequente (dequeAppend HISTORY_SIZE
      (empurra st i).prediction_history
      (cfg.classes.getD (np_argmax (cfg.model (empurra st i).buffer)) "")) = M := by
    rw [hw.1, show (empurra st i).prediction_history = st.prediction_history from rfl,
        hhist, hmix]
    exact gmf_second_wins L M (fun h => hLM h.symm) (HISTORY_SIZE - 7 - 1) (7 + 1)
      (by decide)
  have hne : gesto_mais_frequente (dequeAppend HISTORY_SIZE
      (empurra st i).prediction_history
      (cfg.classes.getD (np_argmax (cfg.model (empurra st i).buffer)) "")) ≠ "" := by
    rw [hgmf]; exact hM0
  have hdiff : some (gesto_mais_frequente (dequeAppend HISTORY_SIZE
      (empurra st i).prediction_history
      (cfg.classes.getD (np_argmax (cfg.model (empurra st i).buffer)) ""))) ≠
      (empurra st i).ultimo_gesto := by
    rw [hgmf, show (empurra st i).ultimo_gesto = st.ultimo_gesto from rfl, hult]
    intro h
    exact hLM (Option.some_injective _ h)
  rw [etapa_emissao_emits cfg (empurra st i) hplen hw.2 hne hdiff]
  refine ⟨rfl, congrArg Option.some hgmf, congrArg Option.some hgmf,
    show (0 : Nat) ≤ SEQUENCE_LENGTH from by decide,
    HISTORY_SIZE - 7 - 1, 7 + 1, by decide, by decide, ?_⟩
  show dequeAppend HISTORY_SIZE (empurra st i).prediction_history
    (cfg.classes.getD (np_argmax (cfg.model (empurra st i).buffer)) "") =
    List.replicate (HISTORY_SIZE - 7 - 1) L ++ List.replicate (7 + 1) M
  rw [hw.1, show (empurra st i).prediction_history = st.prediction_history from rfl,
      hhist, hmix]

/-! ### C2: after the second emission the new label keeps the majority -/

theorem step_posEmissaoB (cfg : Config) (L M : String) (hLM : M ≠ L)
    (hM : classifica_sempre cfg M) (st : State) (i : List Hand)
    (hP : posEmissaoB L M st) (hi : i.isEmpty = false) :
    (processar_frame cfg st i).2.novo_reconhecimento = false ∧
    posEmissaoB L M (processar_frame cfg st i).1 := by
  obtain ⟨hult, hblen, a, b, hab, hb8, hhist⟩ := hP
  rw [processar_frame_empurra cfg st i hi]
  by_cases hfl : (empurra st i).buffer.length = SEQUENCE_LENGTH
  · have hw := hM (empurra st i).buffer hfl
    have hmix := dequeAppend_mixed L M a b hab
    have hgmf : gesto_mais_frequente (dequeAppend HISTORY_SIZE
        (empurra st i).prediction_history
        (cfg.classes.getD (np_argmax (cfg.model (empurra st i).buffer)) "")) = M := by
      rw [hw.1, show (empurra st i).prediction_history = st.prediction_history from rfl,
          hhist, hmix]
      by_cases ha : a = 0
      · rw [if_pos ha]
        exact gmf_replicate _ (by decide) M
      · rw [if_neg ha]
        exact gmf_second_wins L M (fun h => hLM h.symm) (a - 1) (b + 1)
          (by simp only [HISTORY_SIZE] at hab; omega)
    have hsame : some (gesto_mais_frequente (dequeAppend HISTORY_SIZE
        (empurra st i).prediction_history
        (cfg.classes.getD (np_argmax (cfg.model (empurra st i).buffer)) ""))) =
        (empurra st i).ultimo_gesto := by
      rw [hgmf, show (empurra st i).ultimo_gesto = st.ultimo_gesto from rfl, hult]
    rw [etapa_emissao_no_change cfg (empurra st i) hfl hw.2 hsame]
    refine ⟨rfl, hult, Nat.le_of_eq hfl, ?_⟩
    by_cases ha : a = 0
    · refine ⟨0, HISTORY_SIZE, by decide, by decide, ?_⟩
      show dequeAppend HISTORY_SIZE (empurra st i).prediction_history
        (cfg.classes.getD (np_argmax (cfg.model (empurra st i).buffer)) "") =
        List.replicate 0 L ++ List.replicate HISTORY_SIZE M
      rw [hw.1, show (empurra st i).prediction_history = st.prediction_history from rfl,
          hhist, hmix, if_pos ha]
      simp
    · refine ⟨a - 1, b + 1, by omega, by omega, ?_⟩
      show dequeAppend HISTORY_SIZE (empurra st i).prediction_history
        (cfg.classes.getD (np_argmax (cfg.model (empurra st i).buffer)) "") =
        List.replicate (a - 1) L ++ List.replicate (b + 1) M
      rw [hw.1, show (empurra st i).prediction_history = st.prediction_history from rfl,
          hhist, hmix, if_neg ha]
  · simp only [etapa_emissao]
    rw [if_neg hfl]
    refine ⟨rfl, hult, ?_, a, b, hab, hb8, hhist⟩
    show (dequeAppend SEQUENCE_LENGTH st.buffer (processar_landmarks i)).length
      ≤ SEQUENCE_LENGTH
    rw [dequeAppend_length]
    omega

/-! ### C2: the window of a full, non-emitting frame slides -/

theorem etapa_emissao_buffer_no_emit (cfg : Config) (st : State)
    (h : (etapa_emissao cfg st).2.novo_reconhecimento = false) :
    (etapa_emissao cfg st).1.buffer = st.buffer := by
  have hrb := (reconhecer_fst_snd cfg st).1
  simp only [etapa_emissao] at h ⊢
  by_cases hfl : st.buffer.length = SEQUENCE_LENGTH
  · rw [if_pos hfl] at h ⊢
    cases hg : (reconhecer cfg st).1.1 with
    | none => exact hrb
    | some g =>
      rw [hg] at h
      dsimp only at h ⊢
      by_cases hcond : g ≠ "" ∧ some g ≠ (reconhecer cfg st).2.ultimo_gesto
      · rw [if_pos hcond] at h
        simp at h
      · rw [if_neg hcond]
        exact hrb
  · rw [if_neg hfl]

theorem window_slides_no_emit (cfg : Config) (st : State) (hands : List Hand)
    (hpres : hands.isEmpty = false) (hfull : st.buffer.length = SEQUENCE_LENGTH)
    (hnovo : (processar_frame cfg st hands).2.novo_reconhecimento = false) :
    (processar_frame cfg st hands).1.buffer =
      st.buffer.drop 1 ++ [processar_landmarks hands] := by
  rw [processar_frame_empurra cfg st hands hpres] at hnovo ⊢
  rw [etapa_emissao_buffer_no_emit cfg (empurra st hands) hnovo]
  show dequeAppend SEQUENCE_LENGTH st.buffer (processar_landmarks hands) = _
  exact dequeAppend_full SEQUENCE_LENGTH st.buffer (processar_landmarks hands)
    (by decide) hfull

/-! ### C2: the whole run emits exactly one event for the steady label -/

theorem run_unico_evento (cfg : Config) (L : String) (hL0 : L ≠ "")
    (hL : classifica_sempre cfg L) (inputs : List (List Hand))
    (hpres : ∀ i ∈ inputs, i.isEmpty = false) :
    (runEvents cfg initState inputs).map Prod.fst =
      (if SEQUENCE_LENGTH ≤ inputs.length then [some L] else []) ∧
    (73 ≤ inputs.length →
      (runState cfg initState inputs).ultimo_gesto = some L ∧
      (runState cfg initState inputs).buffer.length = SEQUENCE_LENGTH ∧
      (runState cfg initState inputs).prediction_history =
        List.replicate HISTORY_SIZE L) := by
  by_cases hlen : SEQUENCE_LENGTH ≤ inputs.length
  · have hlen30 : 30 ≤ inputs.length := by simpa [SEQUENCE_LENGTH] using hlen
    have htlen : (inputs.take 29).length = 29 := by
      rw [List.length_take]
      omega
    obtain ⟨hfill1, hfill2, hfill3, hfill4⟩ := fill_phase cfg (inputs.take 29) initState
      (fun x hx => hpres x (List.take_subset 29 inputs hx))
      (by rw [htlen]; decide)
    have hb29 : (runState cfg initState (inputs.take 29)).buffer.length = 29 := by
      rw [hfill2, htlen]
      decide
    have hh29 : (runState cfg initState (inputs.take 29)).prediction_history = [] :=
      hfill3.trans rfl
    have hu29 : (runState cfg initState (inputs.take 29)).ultimo_gesto = none :=
      hfill4.trans rfl
    cases hd : inputs.drop 29 with
    | nil =>
      have h1 := List.length_drop 29 inputs
      rw [hd] at h1
      simp only [List.length_nil] at h1
      omega
    | cons i0 rest =>
      have hi0 : i0.isEmpty = false :=
        hpres i0 (List.drop_subset 29 inputs
          (by rw [hd]; exact List.mem_cons_self i0 rest))
      obtain ⟨hf1, hf2, hf3⟩ := fire_first cfg L hL0 hL
        (runState cfg initState (inputs.take 29)) i0 hi0 hb29 hh29 hu29
      obtain ⟨hei, heP⟩ := runEvents_of_inv_idx cfg (fun k s => posEmissao L k s)
        (step_posEmissao cfg L hL) rest 0
        (processar_frame cfg (runState cfg initState (inputs.take 29)) i0).1 hf3
        (fun x hx => hpres x (List.drop_subset 29 inputs
          (by rw [hd]; exact List.mem_cons_of_mem i0 hx)))
      have hchain : runState cfg initState inputs =
          runState cfg
            (processar_frame cfg (runState cfg initState (inputs.take 29)) i0).1 rest := by
        conv_lhs => rw [← List.take_append_drop 29 inputs]
        rw [runState_append, hd]
        simp [runState, List.foldl_cons]
      have hrlen : rest.length = inputs.length - 30 := by
        have h1 := List.length_drop 29 inputs
        rw [hd] at h1
        simp only [List.length_cons] at h1
        omega
      constructor
      · rw [if_pos hlen]
        have hev : runEvents cfg initState inputs =
            runEvents cfg initState (inputs.take 29) ++
            runEvents cfg (runState cfg initState (inputs.take 29)) (inputs.drop 29) := by
          conv_lhs => rw [← List.take_append_drop 29 inputs]
          rw [runEvents_append]
        rw [hev, hfill1, List.nil_append, hd, runEvents_cons, hf1, if_pos rfl, hei]
        simp [hf2]
      · intro h73
        obtain ⟨hu, hb, hh⟩ := heP
        refine ⟨?_, ?_, ?_⟩
        · rw [hchain]; exact hu
        · rw [hchain, hb]
          simp only [SEQUENCE_LENGTH]
          omega
        · rw [hchain, hh]
          congr 1
          simp only [HISTORY_SIZE]
          omega
  · obtain ⟨hfill1, _, _, _⟩ := fill_phase cfg inputs initState hpres
      (by
        have h0 : initState.buffer.length = 0 := rfl
        simp only [SEQUENCE_LENGTH] at hlen
        omega)
    constructor
    · rw [if_neg hlen, hfill1]
      rfl
    · intro h73
      simp only [SEQUENCE_LENGTH] at hlen
      omega

/-! ### C2: from the steady state a differing label emits exactly one new event -/

theorem run_segundo_evento (cfg : Config) (L M : String) (hM0 : M ≠ "") (hLM : M ≠ L)
    (hM : classifica_sempre cfg M) (st : State)
    (hult : st.ultimo_gesto = some L)
    (hhist : st.prediction_history = List.replicate HISTORY_SIZE L)
    (hblen : st.buffer.length = SEQUENCE_LENGTH)
    (ys : List (List Hand)) (hpres : ∀ i ∈ ys, i.isEmpty = false) :
    (runEvents cfg st ys).map Prod.fst = (if 8 ≤ ys.length then [some M] else []) := by
  have hT0 : transicaoB L M 0 st := ⟨hult, hblen, by rw [hhist]; simp⟩
  by_cases hlen : 8 ≤ ys.length
  · cases hd : ys.drop 7 with
    | nil =>
      have h1 := List.length_drop 7 ys
      rw [hd] at h1
      simp only [List.length_nil] at h1
      omega
    | cons i0 rest =>
      have htlen : (ys.take 7).length = 7 := by
        rw [List.length_take]
        omega
      obtain ⟨htev, htT⟩ := transicao_phase cfg L M hLM hM (ys.take 7) 0 st
        (fun x hx => hpres x (List.take_subset 7 ys hx)) (by omega) hT0
      have hi0 : i0.isEmpty = false :=
        hpres i0 (List.drop_subset 7 ys (by rw [hd]; exact List.mem_cons_self i0 rest))
      obtain ⟨hf1, hf2, hf3⟩ := fire_second cfg L M hM0 hLM hM
        (runState cfg st (ys.take 7)) i0 hi0 (by simpa [htlen] using htT)
      obtain ⟨hei, _⟩ := runEvents_of_inv_idx cfg (fun _ s => posEmissaoB L M s)
        (fun _ s i hP hi => step_posEmissaoB cfg L M hLM hM s i hP hi) rest 0
        (processar_frame cfg (runState cfg st (ys.take 7)) i0).1 hf3
        (fun x hx => hpres x (List.drop_subset 7 ys
          (by rw [hd]; exact List.mem_cons_of_mem i0 hx)))
      rw [if_pos hlen]
      have hev : runEvents cfg st ys =
          runEvents cfg st (ys.take 7) ++
          runEvents cfg (runState cfg st (ys.take 7)) (ys.drop 7) := by
        conv_lhs => rw [← List.take_append_drop 7 ys]
        rw [runEvents_append]
      rw [hev, htev, List.nil_append, hd, runEvents_cons, hf1, if_pos rfl, hei]
      simp [hf2]
  · obtain ⟨htev, _⟩ := transicao_phase cfg L M hLM hM ys 0 st hpres (by omega) hT0
    rw [if_neg hlen, htev]
    rfl

/-- C2: debouncing.  Universally over every recognizer configuration and
every label the classifier keeps returning confidently on full windows:
(a) a run of hand-present frames from the initial state emits exactly one
event, carrying that label, as soon as the window first fills - and none at
all if the window never fills - and a long enough run parks the state at
the saturated fixed point; (b) from the saturated state of a previous label,
a classifier now confidently returning a differing label emits exactly one
further event, carrying the new label, once its votes outnumber the residue
(8 of the 15 history slots); (c) while a full-window frame does not emit,
the window slides: the oldest sample is evicted and the newest appended. -/
theorem debounce_single_emission :
    (∀ (cfg : Config) (L : String) (inputs : List (List Hand)),
      L ≠ "" → (∀ i ∈ inputs, i.isEmpty = false) → classifica_sempre cfg L →
      (runEvents cfg initState inputs).map Prod.fst =
        (if SEQUENCE_LENGTH ≤ inputs.length then [some L] else []) ∧
      (73 ≤ inputs.length →
        (runState cfg initState inputs).ultimo_gesto = some L ∧
        (runState cfg initState inputs).buffer.length = SEQUENCE_LENGTH ∧
        (runState cfg initState inputs).prediction_history =
          List.replicate HISTORY_SIZE L)) ∧
    (∀ (cfg : Config) (L M : String) (st : State) (ys : List (List Hand)),
      M ≠ "" → M ≠ L → classifica_sempre cfg M →
      st.ultimo_gesto = some L →
      st.prediction_history = List.replicate HISTORY_SIZE L →
      st.buffer.length = SEQUENCE_LENGTH →
      (∀ i ∈ ys, i.isEmpty = false) →
      (runEvents cfg st ys).map Prod.fst =
        (if 8 ≤ ys.length then [some M] else [])) ∧
    (∀ (cfg : Config) (st : State) (hands : List Hand),
      hands.isEmpty = false → st.buffer.length = SEQUENCE_LENGTH →
      (processar_frame cfg st hands).2.novo_reconhecimento = false →
      (processar_frame cfg st hands).1.buffer =
        st.buffer.drop 1 ++ [processar_landmarks hands]) :=
  ⟨fun cfg L inputs hL0 hpres hL => run_unico_evento cfg L hL0 hL inputs hpres,
   fun cfg L M st ys hM0 hLM hM hu hh hb hpres =>
     run_segundo_evento cfg L M hM0 hLM hM st hu hh hb ys hpres,
   fun cfg st hands hpres hfull hnovo =>
     window_slides_no_emit cfg st hands hpres hfull hnovo⟩

theorem debounce_single_emission_witness :
    (runEvents cfgC initState (List.replicate 30 [handA])).map Prod.fst = [some "A"] ∧
    (runEvents cfgM steadyA (List.replicate 8 [handB])).map Prod.fst = [some "B"] ∧
    (processar_frame cfgC steadyA [handA]).1.buffer =
      steadyA.buffer.drop 1 ++ [processar_landmarks [handA]] := by
  refine ⟨?_, ?_, ?_⟩
  · have h := (debounce_single_emission.1 cfgC "A" (List.replicate 30 [handA])
      (by decide) (fun i hi => by rw [List.eq_of_mem_replicate hi]; rfl)
      (fun w hw =>
        ⟨show (["A"] : List String).getD (np_argmax [mkRat 9 10]) "" = "A" from
          by decide,
         show ¬ ([mkRat 9 10] : List ℚ).getD (np_argmax [mkRat 9 10]) 0 < mkRat 7 10
          from by decide⟩)).1
    simpa using h
  · have h := debounce_single_emission.2.1 cfgM "A" "B" steadyA
      (List.replicate 8 [handB]) (by decide) (by decide)
      (fun w hw =>
        ⟨show (["A", "B"] : List String).getD
            (np_argmax [mkRat 1 10, mkRat 9 10]) "" = "B" from by decide,
         show ¬ ([mkRat 1 10, mkRat 9 10] : List ℚ).getD
            (np_argmax [mkRat 1 10, mkRat 9 10]) 0 < mkRat 7 10 from by decide⟩)
      rfl rfl (by decide)
      (fun i hi => by rw [List.eq_of_mem_replicate hi]; rfl)
    simpa using h
  · exact debounce_single_emission.2.2 cfgC steadyA [handA] rfl (by decide) (by decide)

/-- C3 counterexample: in the GUI variant (`LibrasApp.reconhecer_gesto`,
GUI/main.py lines 928-961) a frame whose confidence 0.5 sits strictly below
the 0.7 gate still appends the normalized label to `historico_predicoes`
(line 938) and still updates `ultimo_gesto_reconhecido` (line 961): starting
from an empty history and no last gesture, the call returns a state whose
history is non-empty and whose last gesture is set. -/
theorem gui_low_confidence_enters_history_counterexample :
    reconhecer_gesto ["A"] (fun _ => Except.ok [mkRat 1 2]) "X"
      ⟨[], [], none, 0, 1⟩ =
      (⟨[], [normaliza "A"], some "A", 0, 1⟩, GuiOutcome.reconhecido "A") ∧
    ([normaliza "A"] : List String) ≠ [] ∧
    mkRat 1 2 < MIN_CONFIDENCE :=
  ⟨rfl, by simp, by decide⟩

/-- C4 counterexample: in the app/reconhecer variant
(app/reconhecer/reconhecer_gestos.py lines 62-66) the absence reset clears
only `buffer`: a hand-free frame at `frames_sem_maos = 10` with a one-sample
window and the vote history holding "A" leaves the history untouched while
the window is emptied. -/
theorem app_reset_keeps_history_counterexample :
    (passo_loop_app ["A"] (fun _ => [mkRat 9 10])
      ⟨[sampleA], 10, ["A"], some "A"⟩ []).1.buffer = [] ∧
    (passo_loop_app ["A"] (fun _ => [mkRat 9 10])
      ⟨[sampleA], 10, ["A"], some "A"⟩ []).1.historico_predicoes = ["A"] := by
  decide



end LIA
